import Mathlib

/-!
# Verification of `tlsutil`'s session-ticket key rotation

Shallow embedding of the Go `KeyRotator` and the
`WithSessionTicketKeyRotation` option from `tlsutil`, with proofs about
rotation, its error handling, the ring-length invariant and the
`Start`/`Stop` shutdown handshake.

Modelling conventions:
* A key is a Go `[32]byte`: a list of 32 bytes.
* A randomness read (`r.read`, i.e. `io.ReadFull(cfg.Rand, key)` or
  `crypto/rand.Read(key)`) either fills the whole 32-byte buffer or fails
  (read error / short read); it is modelled by an `Option Key` argument:
  `some k` is a successful read producing `k`, `none` a failed read.
* Go runtime panics are modelled by `Option`-valued results (`none` = panic).
* Errors are modelled by a `Bool` (`true` = non-nil error returned).
-/

namespace Tlsutil

/-- A session ticket key, Go `[32]byte`: 32 bytes, each in `0..255`. -/
abbrev Key : Type := { l : List (Fin 256) // l.length = 32 }

/-- The zero value of `[32]byte`: 32 zero bytes. `var key [32]byte` and the
elements of `make([][32]byte, 0, n)`'s backing array start out as this. -/
def zeroKey : Key := ⟨List.replicate 32 0, List.length_replicate 32 0⟩

/-- A concrete non-zero key used in witnesses: 32 copies of the byte `b`. -/
def mkKey (b : Fin 256) : Key := ⟨List.replicate 32 b, List.length_replicate 32 b⟩

/-- The fields of `tls.Config` that the rotation code reads or writes:
the session ticket keys installed by `SetSessionTicketKeys` and the
`SessionTicketsDisabled` flag. -/
structure Config where
  sessionTicketKeys : List Key
  sessionTicketsDisabled : Bool
deriving DecidableEq

/-- The `KeyRotator` struct. `capacity` is `cap(r.keys)`, fixed at
construction by `make([][32]byte, 0, n)`; `keys` is the current slice
contents (`r.keys[:len(r.keys)]`). The unbuffered `stop` channel is modelled
separately by the `Step` transition system below. -/
structure KeyRotator where
  cfg : Config
  duration : Nat
  keys : List Key
  capacity : Nat
deriving DecidableEq

/-- One call of `(r *KeyRotator).rotate()`.

The Go body, in order:
1. `if len(r.keys) < cap(r.keys) { r.keys = r.keys[:len(r.keys)+1] }` —
   grow the slice by one. The newly exposed element is the zero value
   `zeroKey`: the backing array is zeroed by `make` and indices `≥ len` are
   never written (the only writes are `r.keys[0] = key` and the `copy` into
   `r.keys[1:]`), so the first time an index is exposed it still holds zero.
2. `copy(r.keys[1:], r.keys[:])` — Go `copy` has memmove semantics on
   overlap, so this shifts every element one slot towards the tail,
   dropping the last and leaving index 0 unchanged: `a :: t` becomes
   `a :: dropLast (a :: t)`. When the slice is empty (only possible when
   `cap = 0`, since step 1 would otherwise have grown it), the expression
   `r.keys[1:]` is out of bounds and the Go runtime panics: modelled by
   `none`.
3. `_, err := r.read(key[:])` — the `rand` argument.
4. `if err == nil { r.keys[0] = key }` — install the new key at the head
   only on success.
5. `r.cfg.SetSessionTicketKeys(r.keys)` — unconditionally republish the
   ring to the config.
6. `return err`.

Returns `none` on panic, otherwise `some (r', errOccurred)`. -/
def KeyRotator.rotate (r : KeyRotator) (rand : Option Key) : Option (KeyRotator × Bool) :=
  let ext := if r.keys.length < r.capacity then r.keys ++ [zeroKey] else r.keys
  match ext with
  | [] => none
  | a :: t =>
      let ks := match rand with
        | some k => k :: List.dropLast (a :: t)
        | none => a :: List.dropLast (a :: t)
      some ({ r with keys := ks, cfg := { r.cfg with sessionTicketKeys := ks } },
            rand.isNone)

/-- A sequence of `rotate()` calls, one per element of `rands`
(`some k` = the call's randomness read succeeds producing `k`, `none` = it
fails). `none` overall if some call panics. Errors are discarded, as the
`Start` loop does. -/
def KeyRotator.rotateSeq : KeyRotator → List (Option Key) → Option KeyRotator
  | r, [] => some r
  | r, o :: os =>
      match r.rotate o with
      | none => none
      | some (r', _) => KeyRotator.rotateSeq r' os

/-- A run of successful rotations generating the keys `ks`, in order. -/
def KeyRotator.successSeq (r : KeyRotator) (ks : List Key) : Option KeyRotator :=
  r.rotateSeq (ks.map some)

/-- `WithSessionTicketKeyRotation(g, n, d)` applied to a config `cfg`, with
the eager seeding rotation's randomness read modelled by `rand`.

Builds `r := &KeyRotator{cfg, d, make([][32]byte, 0, n), make(chan ...)}`
and calls `r.rotate()`:
* on error: sets `cfg.SessionTicketsDisabled = true`, does not call
  `g.Add(r)`, and returns `nil`;
* on success: calls `g.Add(r)` (registering the rotator with the task
  group) and returns `nil`.

The result is `none` if the seeding rotation panics (`n = 0`), otherwise
`some (cfg', registered, errReturned)` where `registered` is the rotator
passed to `g.Add` (or `none` if `g.Add` was not called) and `errReturned`
is whether the option returned a non-nil error. -/
def WithSessionTicketKeyRotation (n : Nat) (d : Nat) (cfg : Config) (rand : Option Key) :
    Option (Config × Option KeyRotator × Bool) :=
  let r : KeyRotator := ⟨cfg, d, [], n⟩
  match r.rotate rand with
  | none => none
  | some (r', true) =>
      some ({ r'.cfg with sessionTicketsDisabled := true }, none, false)
  | some (r', false) => some (r'.cfg, some r', false)

/-- The zero `tls.Config`: no session ticket keys set yet, tickets enabled. -/
def defaultConfig : Config := ⟨[], false⟩

/-- The ring contents after one `rotate()` call with randomness outcome
`rand`, on a ring `keys` of capacity `cap`: the head slot receives the new
key on success and keeps the pre-call head (or the zero value on a ring
that was empty) on failure, and the rest is the pre-call ring truncated to
`cap - 1` elements. -/
def ringAfter (cap : Nat) (keys : List Key) (rand : Option Key) : List Key :=
  rand.getD (keys.headD zeroKey) :: keys.take (cap - 1)

/-- The two things `Start`'s `select` can wake on: a tick of the
`time.Ticker` (carrying the outcome of the `rotate()` call it triggers) or
a shutdown request arriving on the `r.stop` channel. -/
inductive Event where
  | tick (rand : Option Key)
  | stopReq
deriving DecidableEq

/-- `(r *KeyRotator).Start()`, run against a schedule of events: the
`for`/`select` loop handles exactly one event per iteration. On a timer
tick it calls `r.rotate()` and discards the returned error; on a shutdown
request it closes the acknowledgment channel and returns `nil`. The result
is `none` if some `rotate()` call panics, otherwise `some (r', exited)`
where `exited` is `true` when the loop returned (which only a shutdown
request causes) and `false` when the schedule ran out with the loop still
running. -/
def KeyRotator.Start : KeyRotator → List Event → Option (KeyRotator × Bool)
  | r, [] => some (r, false)
  | r, Event.tick rand :: es =>
      match r.rotate rand with
      | none => none
      | some (r', _) => KeyRotator.Start r' es
  | r, Event.stopReq :: _ => some (r, true)

/-- A Go `error` interface value: `none` is `nil`, `some msg` an error. -/
def GoError : Type := Option String

/-- The channel operations `Stop` performs: the send of the fresh
acknowledgment channel `q` on `r.stop`, and the receive on `q` that blocks
until the run loop closes it. -/
inductive ChanOp where
  | sendStop
  | recvAck
deriving DecidableEq

/-- `(r *KeyRotator).Stop(err)`: allocates a fresh channel `q`, sends it on
`r.stop`, and blocks receiving on `q`. The body never reads `err`.
Modelled by the sequence of channel operations the body performs. -/
def KeyRotator.Stop (r : KeyRotator) (err : GoError) : List ChanOp :=
  [ChanOp.sendStop, ChanOp.recvAck]

/-- Where the run loop is: blocked in the `select` (`running`), having just
received a shutdown request and about to `close(q); return nil` (`acking`),
or returned (`exited`). -/
inductive LoopPhase where
  | running
  | acking
  | exited
deriving DecidableEq

/-- Where a `Stop` caller is: not yet called, blocked sending `q` on the
unbuffered `r.stop` channel (`requesting`), blocked receiving on `q`
(`waitingAck`), or returned (`returned`). -/
inductive StopPhase where
  | notCalled
  | requesting
  | waitingAck
  | returned
deriving DecidableEq

/-- Combined state of the rotator, its run loop, and one `Stop` caller.
`ackClosed` records whether `close(q)` has happened. -/
structure SysState where
  rot : KeyRotator
  loop : LoopPhase
  stopper : StopPhase
  ackClosed : Bool

/-- Interleaving semantics of the run loop and one concurrent `Stop` call.
`r.stop` is unbuffered, so the stopper's send and the loop's
`case q := <-r.stop` complete together (`rendezvous`); while the send is
still pending the `select` may keep choosing the timer case (`tick`). The
loop then does `close(q); return nil` (`ack`), and only a closed `q` lets
the stopper's `<-q` complete (`stopReturn`). Each step is one handled
`select` case or one stopper action. -/
inductive Step : SysState → SysState → Prop where
  | tick (s : SysState) (rand : Option Key) (r' : KeyRotator) (e : Bool) :
      s.loop = LoopPhase.running → s.rot.rotate rand = some (r', e) →
      Step s { s with rot := r' }
  | callStop (s : SysState) (err : GoError) :
      s.stopper = StopPhase.notCalled →
      Step s { s with stopper := StopPhase.requesting }
  | rendezvous (s : SysState) :
      s.loop = LoopPhase.running → s.stopper = StopPhase.requesting →
      Step s { s with loop := LoopPhase.acking, stopper := StopPhase.waitingAck }
  | ack (s : SysState) :
      s.loop = LoopPhase.acking →
      Step s { s with loop := LoopPhase.exited, ackClosed := true }
  | stopReturn (s : SysState) :
      s.stopper = StopPhase.waitingAck → s.ackClosed = true →
      Step s { s with stopper := StopPhase.returned }

/-- The initial system state: run loop in its `select`, `Stop` not yet
called, acknowledgment channel not closed. -/
def SysState.init (r : KeyRotator) : SysState :=
  ⟨r, LoopPhase.running, StopPhase.notCalled, false⟩

/-- System states reachable from the initial state. -/
def Reach (r : KeyRotator) (s : SysState) : Prop :=
  Relation.ReflTransGen Step (SysState.init r) s

/-- The handshake invariant: a returned `Stop` means the loop has exited;
a stopper blocked on `<-q` means the loop has left its `select`; a closed
`q` means the loop has exited. -/
def HandshakeInv (s : SysState) : Prop :=
  (s.stopper = StopPhase.returned → s.loop = LoopPhase.exited) ∧
  (s.stopper = StopPhase.waitingAck → s.loop ≠ LoopPhase.running) ∧
  (s.ackClosed = true → s.loop = LoopPhase.exited)

/-- Characterization of `rotate()` on a well-formed rotator
(`len(keys) ≤ cap`, `cap ≥ 1`): it never panics, returns an error exactly
when the randomness read failed, replaces the ring by `ringAfter`, and
republishes that ring to the config. -/
theorem KeyRotator.rotate_eq (r : KeyRotator) (rand : Option Key)
    (hlen : r.keys.length ≤ r.capacity) (hcap : 1 ≤ r.capacity) :
    r.rotate rand =
      some (⟨⟨ringAfter r.capacity r.keys rand, r.cfg.sessionTicketsDisabled⟩,
             r.duration, ringAfter r.capacity r.keys rand, r.capacity⟩,
            rand.isNone) := by
  rcases r with ⟨⟨stk, std⟩, d, keys, cap⟩
  simp only [KeyRotator.rotate, ringAfter] at *
  by_cases hlt : keys.length < cap
  · rw [if_pos hlt]
    cases keys with
    | nil =>
        cases rand <;> simp
    | cons a t =>
        have hext : (a :: t) ++ [zeroKey] = a :: (t ++ [zeroKey]) := by
          simp
        have hdrop : List.dropLast (a :: (t ++ [zeroKey])) = a :: t := by
          rw [← hext, List.dropLast_concat]
        have htake : (a :: t).take (cap - 1) = a :: t :=
          List.take_of_length_le (by simp at hlt ⊢; omega)
        rw [hext]
        cases rand <;> simp [hdrop, htake]
  · rw [if_neg hlt]
    have hlen' : keys.length = cap := by omega
    cases keys with
    | nil => simp at hlen'; omega
    | cons a t =>
        have hdrop : List.dropLast (a :: t) = (a :: t).take (cap - 1) := by
          rw [List.dropLast_eq_take, hlen']
        cases rand <;> simp [hdrop]

/-- The ring after a well-formed rotation still satisfies
`len(keys) ≤ cap`. -/
theorem length_ringAfter_le (cap : Nat) (keys : List Key) (rand : Option Key)
    (hcap : 1 ≤ cap) : (ringAfter cap keys rand).length ≤ cap := by
  simp only [ringAfter, List.length_cons, List.length_take]
  omega

/-- `rotate()` never changes `capacity` or `duration`, and it republishes
exactly its new ring to the config. -/
theorem KeyRotator.rotate_fields (r : KeyRotator) (rand : Option Key)
    (r' : KeyRotator) (e : Bool) (h : r.rotate rand = some (r', e)) :
    r'.capacity = r.capacity ∧ r'.duration = r.duration ∧
      r'.cfg.sessionTicketKeys = r'.keys ∧
      r'.cfg.sessionTicketsDisabled = r.cfg.sessionTicketsDisabled ∧
      e = rand.isNone := by
  rcases r with ⟨⟨stk, std⟩, d, keys, cap⟩
  simp only [KeyRotator.rotate] at h
  rcases hext : (if keys.length < cap then keys ++ [zeroKey] else keys) with _ | ⟨a, t⟩ <;>
    rw [hext] at h
  · simp at h
  · cases rand <;> simp only [Option.some.injEq, Prod.mk.injEq] at h <;>
      obtain ⟨h1, h2⟩ := h <;> subst h1 <;> simp [h2]

/-- A `rotate()` call on a rotator whose ring is no longer than its
capacity and whose capacity is positive cannot panic, and preserves both
conditions. -/
theorem KeyRotator.rotate_wf (r : KeyRotator) (rand : Option Key)
    (hlen : r.keys.length ≤ r.capacity) (hcap : 1 ≤ r.capacity) :
    ∃ r' e, r.rotate rand = some (r', e) ∧
      r'.keys.length ≤ r'.capacity ∧ 1 ≤ r'.capacity ∧
      r'.capacity = r.capacity := by
  refine ⟨_, _, r.rotate_eq rand hlen hcap, ?_, hcap, rfl⟩
  exact length_ringAfter_le r.capacity r.keys rand hcap

/-- A sequence of `rotate()` calls on a well-formed rotator never panics
and preserves well-formedness and the capacity. -/
theorem KeyRotator.rotateSeq_wf (os : List (Option Key)) (r : KeyRotator)
    (hlen : r.keys.length ≤ r.capacity) (hcap : 1 ≤ r.capacity) :
    ∃ r', r.rotateSeq os = some r' ∧
      r'.keys.length ≤ r'.capacity ∧ 1 ≤ r'.capacity ∧
      r'.capacity = r.capacity := by
  induction os generalizing r with
  | nil => exact ⟨r, rfl, hlen, hcap, rfl⟩
  | cons o os ih =>
      obtain ⟨r₁, e, h1, hlen₁, hcap₁, hc₁⟩ := r.rotate_wf o hlen hcap
      obtain ⟨r', h', hlen', hcap', hc'⟩ := ih r₁ hlen₁ hcap₁
      refine ⟨r', ?_, hlen', hcap', by omega⟩
      simp [KeyRotator.rotateSeq, h1, h']

/-- When a sequence of `rotate()` calls runs to completion, every
intermediate state satisfies `len(keys) ≤ cap` provided the starting state
does: the invariant holds before and after every call of the sequence. -/
theorem KeyRotator.rotateSeq_invariant (os : List (Option Key)) (r : KeyRotator)
    (hlen : r.keys.length ≤ r.capacity)
    (pre suf : List (Option Key)) (hsplit : os = pre ++ suf)
    (rMid : KeyRotator) (hMid : r.rotateSeq pre = some rMid) :
    rMid.keys.length ≤ rMid.capacity := by
  induction pre generalizing r os with
  | nil =>
      simp only [KeyRotator.rotateSeq] at hMid
      cases hMid
      exact hlen
  | cons o pre ih =>
      simp only [KeyRotator.rotateSeq] at hMid
      rcases h1 : r.rotate o with _ | ⟨r₁, e⟩ <;> rw [h1] at hMid
      · simp at hMid
      · rcases Nat.eq_zero_or_pos r.capacity with hc0 | hc1
        · -- capacity 0 forces an empty ring, on which rotate() panics
          have hk : r.keys = [] := by
            cases hk : r.keys with
            | nil => rfl
            | cons a t => rw [hk] at hlen; simp [hc0] at hlen
          rcases r with ⟨cfg, d, keys, cap⟩
          simp only at hk hc0
          subst hk; subst hc0
          simp [KeyRotator.rotate] at h1
        · obtain ⟨r₁', e', h1', hlen₁, _, _⟩ := r.rotate_wf o hlen hc1
          rw [h1'] at h1
          cases h1
          exact ih (pre ++ suf) _ hlen₁ rfl hMid

/-- Splitting a sequence of `rotate()` calls at any point. -/
theorem KeyRotator.rotateSeq_append (r : KeyRotator) (os₁ os₂ : List (Option Key)) :
    r.rotateSeq (os₁ ++ os₂) =
      (r.rotateSeq os₁).bind (fun r₁ => r₁.rotateSeq os₂) := by
  induction os₁ generalizing r with
  | nil => simp [KeyRotator.rotateSeq]
  | cons o os₁ ih =>
      simp only [List.cons_append, KeyRotator.rotateSeq]
      rcases r.rotate o with _ | ⟨r₁, e⟩
      · rfl
      · exact ih r₁

/-- Truncating to `m ≤ N` elements does not see the difference between a
ring pre-truncated to `N - 1` elements behind a fresh head and the
untruncated ring. -/
theorem take_cons_take (k : Key) (l : List Key) (m N : Nat) (h : m ≤ N) :
    (k :: l.take (N - 1)).take m = (k :: l).take m := by
  cases m with
  | zero => simp
  | succ j =>
      simp only [List.take_succ_cons, List.take_take]
      have : min j (N - 1) = j := by omega
      rw [this]

/-- Ring contents after a run of successful rotations generating the keys
`ks`, from any well-formed starting state: the generated keys, newest
first, followed by the old ring, the whole truncated to the capacity. -/
theorem KeyRotator.successSeq_keys (ks : List Key) (r : KeyRotator)
    (hlen : r.keys.length ≤ r.capacity) (hcap : 1 ≤ r.capacity) :
    ∃ r', r.successSeq ks = some r' ∧
      r'.keys = (ks.reverse ++ r.keys).take r.capacity ∧
      r'.capacity = r.capacity := by
  induction ks generalizing r with
  | nil =>
      exact ⟨r, rfl, by simp [List.take_of_length_le hlen], rfl⟩
  | cons k ks ih =>
      have h1 := r.rotate_eq (some k) hlen hcap
      have hlen₁ : (ringAfter r.capacity r.keys (some k)).length ≤ r.capacity :=
        length_ringAfter_le r.capacity r.keys (some k) hcap
      obtain ⟨r', h', hkeys', hcap'⟩ :=
        ih ⟨⟨ringAfter r.capacity r.keys (some k), r.cfg.sessionTicketsDisabled⟩,
            r.duration, ringAfter r.capacity r.keys (some k), r.capacity⟩ hlen₁ hcap
      refine ⟨r', ?_, ?_, hcap'⟩
      · simp only [KeyRotator.successSeq, List.map_cons, KeyRotator.rotateSeq, h1]
        exact h'
      · rw [hkeys']
        simp only [ringAfter, Option.getD, List.reverse_cons, List.append_assoc,
          List.singleton_append]
        rw [List.take_append_eq_append_take, List.take_append_eq_append_take,
          take_cons_take k r.keys (r.capacity - ks.reverse.length) r.capacity
            (Nat.sub_le _ _)]

/-- Every step of the interleaving semantics preserves the handshake
invariant. -/
theorem step_preserves_handshakeInv (s s' : SysState) (h : Step s s')
    (inv : HandshakeInv s) : HandshakeInv s' := by
  obtain ⟨i1, i2, i3⟩ := inv
  cases h with
  | tick rand r' e hrun hrot =>
      refine ⟨fun hr => ?_, fun hw => ?_, fun ha => ?_⟩
      · have hr' : s.stopper = StopPhase.returned := hr
        rw [i1 hr'] at hrun
        simp at hrun
      · have hw' : s.stopper = StopPhase.waitingAck := hw
        exact absurd hrun (i2 hw')
      · have ha' : s.ackClosed = true := ha
        rw [i3 ha'] at hrun
        simp at hrun
  | callStop err hnc =>
      refine ⟨fun hr => ?_, fun hw => ?_, fun ha => i3 ha⟩
      · have : StopPhase.requesting = StopPhase.returned := hr
        simp at this
      · have : StopPhase.requesting = StopPhase.waitingAck := hw
        simp at this
  | rendezvous hrun hreq =>
      refine ⟨fun hr => ?_, fun hw => ?_, fun ha => ?_⟩
      · have : StopPhase.waitingAck = StopPhase.returned := hr
        simp at this
      · show LoopPhase.acking ≠ LoopPhase.running
        simp
      · have ha' : s.ackClosed = true := ha
        rw [i3 ha'] at hrun
        simp at hrun
  | ack hack =>
      refine ⟨fun hr => rfl, fun hw => ?_, fun ha => rfl⟩
      show LoopPhase.exited ≠ LoopPhase.running
      simp
  | stopReturn hw hac =>
      refine ⟨fun hr => i3 hac, fun hw' => ?_, fun ha => i3 ha⟩
      have : StopPhase.returned = StopPhase.waitingAck := hw'
      simp at this

/-- The handshake invariant holds in every reachable state. -/
theorem reach_handshakeInv (r : KeyRotator) (s : SysState) (h : Reach r s) :
    HandshakeInv s := by
  induction h with
  | refl =>
      exact ⟨fun hr => by simp [SysState.init] at hr,
             fun hw => by simp [SysState.init] at hw,
             fun ha => by simp [SysState.init] at ha⟩
  | tail _ hstep ih => exact step_preserves_handshakeInv _ _ hstep ih

/-- A completed sequence of `rotate()` calls never changes the capacity. -/
theorem KeyRotator.rotateSeq_capacity (os : List (Option Key)) (r r' : KeyRotator)
    (h : r.rotateSeq os = some r') : r'.capacity = r.capacity := by
  induction os generalizing r with
  | nil =>
      simp only [KeyRotator.rotateSeq] at h
      cases h
      rfl
  | cons o os ih =>
      simp only [KeyRotator.rotateSeq] at h
      rcases h1 : r.rotate o with _ | ⟨r₁, e⟩ <;> rw [h1] at h
      · simp at h
      · rw [ih r₁ h]
        exact (r.rotate_fields o r₁ e h1).1

/-- Any number of failed `rotate()` calls on a well-formed rotator with a
non-empty ring leaves the head of the ring unchanged. -/
theorem KeyRotator.rotateSeq_failures_head (m : Nat) (r : KeyRotator)
    (hlen : r.keys.length ≤ r.capacity) (hcap : 1 ≤ r.capacity)
    (hne : r.keys ≠ []) :
    ∃ r', r.rotateSeq (List.replicate m none) = some r' ∧
      r'.keys.head? = r.keys.head? := by
  induction m generalizing r with
  | zero => exact ⟨r, rfl, rfl⟩
  | succ m ih =>
      have h1 := r.rotate_eq none hlen hcap
      have hlen₁ := length_ringAfter_le r.capacity r.keys none hcap
      cases hk : r.keys with
      | nil => exact absurd hk hne
      | cons a t =>
          have hhead : ringAfter r.capacity r.keys none = a :: r.keys.take (r.capacity - 1) := by
            simp [ringAfter, hk]
          obtain ⟨r', h', hh'⟩ :=
            ih ⟨⟨ringAfter r.capacity r.keys none, r.cfg.sessionTicketsDisabled⟩,
                r.duration, ringAfter r.capacity r.keys none, r.capacity⟩
              hlen₁ hcap (by simp [hhead])
          refine ⟨r', ?_, ?_⟩
          · rw [List.replicate_succ]
            simp only [KeyRotator.rotateSeq, h1]
            exact h'
          · rw [hh', hk]
            simp [ringAfter]

/-- Claim C1, evaluated at a failing input: a `rotate()` whose randomness
read fails does NOT leave the ring byte-for-byte unchanged. From ring
`[k1]` with capacity 3, a failed rotation grows the ring to `[k1, k1]`
(head duplicated, length increased) and republishes that ring to the sink;
from a full ring `[k3, k2, k1]` a failed rotation produces `[k3, k3, k2]`,
dropping the oldest key. -/
theorem rotate_failure_mutates_ring :
    ((⟨⟨[mkKey 1], false⟩, 1, [mkKey 1], 3⟩ : KeyRotator).rotate none =
      some (⟨⟨[mkKey 1, mkKey 1], false⟩, 1, [mkKey 1, mkKey 1], 3⟩, true)) ∧
    ([mkKey 1, mkKey 1] ≠ [mkKey 1]) ∧
    ((⟨⟨[mkKey 3, mkKey 2, mkKey 1], false⟩, 1,
        [mkKey 3, mkKey 2, mkKey 1], 3⟩ : KeyRotator).rotate none =
      some (⟨⟨[mkKey 3, mkKey 3, mkKey 2], false⟩, 1,
        [mkKey 3, mkKey 3, mkKey 2], 3⟩, true)) := by
  refine ⟨?_, ?_, ?_⟩ <;> decide

/-- Claim C9: when the very first rotation (from an empty ring) fails, that
failed `rotate()` call still hands the sink a key list holding exactly one
all-zero 32-byte key, with the tickets-disabled flag not yet touched; the
construction wrapper then sets the flag on the returned config. -/
theorem first_failed_rotation_publishes_zero_key (n d : Nat) (hn : 1 ≤ n)
    (cfg : Config) :
    (∃ r', (⟨cfg, d, [], n⟩ : KeyRotator).rotate none = some (r', true) ∧
      r'.cfg.sessionTicketKeys = [zeroKey] ∧
      r'.cfg.sessionTicketsDisabled = cfg.sessionTicketsDisabled) ∧
    (∃ cfg', WithSessionTicketKeyRotation n d cfg none = some (cfg', none, false) ∧
      cfg'.sessionTicketKeys = [zeroKey] ∧
      cfg'.sessionTicketsDisabled = true) := by
  have hra : ringAfter n ([] : List Key) none = [zeroKey] := by
    simp [ringAfter]
  have h1 := (⟨cfg, d, [], n⟩ : KeyRotator).rotate_eq none (by simp) hn
  simp only [Option.isNone_none] at h1
  rw [hra] at h1
  constructor
  · exact ⟨_, h1, rfl, rfl⟩
  · refine ⟨⟨[zeroKey], true⟩, ?_, rfl, rfl⟩
    simp only [WithSessionTicketKeyRotation, h1]

/-- Claim C6: if the eager seeding rotation in `WithSessionTicketKeyRotation`
fails, the config gets `SessionTicketsDisabled = true`, the rotator is not
registered with the group (no background task), and the option still
returns `nil`; if it succeeds, the rotator is registered and the
tickets-disabled flag is left as it was. -/
theorem withSessionTicketKeyRotation_seeding (n d : Nat) (hn : 1 ≤ n)
    (cfg : Config) :
    (∃ cfg', WithSessionTicketKeyRotation n d cfg none = some (cfg', none, false) ∧
      cfg'.sessionTicketsDisabled = true) ∧
    (∀ k : Key, ∃ cfg' r',
      WithSessionTicketKeyRotation n d cfg (some k) = some (cfg', some r', false) ∧
      cfg'.sessionTicketsDisabled = cfg.sessionTicketsDisabled) := by
  constructor
  · have hra : ringAfter n ([] : List Key) none = [zeroKey] := by
      simp [ringAfter]
    have h1 := (⟨cfg, d, [], n⟩ : KeyRotator).rotate_eq none (by simp) hn
    simp only [Option.isNone_none] at h1
    rw [hra] at h1
    refine ⟨⟨[zeroKey], true⟩, ?_, rfl⟩
    simp only [WithSessionTicketKeyRotation, h1]
  · intro k
    have hra : ringAfter n ([] : List Key) (some k) = [k] := by
      simp [ringAfter]
    have h1 := (⟨cfg, d, [], n⟩ : KeyRotator).rotate_eq (some k) (by simp) hn
    simp only [Option.isNone_some] at h1
    rw [hra] at h1
    refine ⟨⟨[k], cfg.sessionTicketsDisabled⟩,
      ⟨⟨[k], cfg.sessionTicketsDisabled⟩, d, [k], n⟩, ?_, rfl⟩
    simp only [WithSessionTicketKeyRotation, h1]

/-- Claim C2: in any run of successful rotations from a freshly constructed
rotator of capacity `N ≥ 1`, after the k-th rotation (1 ≤ k ≤ N ≤ or not,
here stated for k ≤ N as claimed) the head of the ring is the k-th
generated key and the rest of the ring is the previous ring truncated to
`N - 1` elements; with capacity 3, three rotations give `[k3, k2, k1]` and
a fourth gives `[k4, k3, k2]`, dropping `k1`. -/
theorem rotate_success_ring_shape (N d : Nat) (hN : 1 ≤ N) (cfg : Config)
    (ks : List Key) (k : Nat) (hk1 : 1 ≤ k) (hkN : k ≤ N) (hklen : k ≤ ks.length) :
    (∃ rPrev rCur,
      (⟨cfg, d, [], N⟩ : KeyRotator).successSeq (ks.take (k - 1)) = some rPrev ∧
      (⟨cfg, d, [], N⟩ : KeyRotator).successSeq (ks.take k) = some rCur ∧
      rCur.keys.head? = some (ks.getD (k - 1) zeroKey) ∧
      rCur.keys.tail = rPrev.keys.take (N - 1)) ∧
    ((⟨defaultConfig, 1, ([] : List Key), 3⟩ : KeyRotator).successSeq
        [mkKey 1, mkKey 2, mkKey 3] =
      some ⟨⟨[mkKey 3, mkKey 2, mkKey 1], false⟩, 1,
        [mkKey 3, mkKey 2, mkKey 1], 3⟩) ∧
    ((⟨defaultConfig, 1, ([] : List Key), 3⟩ : KeyRotator).successSeq
        [mkKey 1, mkKey 2, mkKey 3, mkKey 4] =
      some ⟨⟨[mkKey 4, mkKey 3, mkKey 2], false⟩, 1,
        [mkKey 4, mkKey 3, mkKey 2], 3⟩) := by
  refine ⟨?_, by decide, by decide⟩
  obtain ⟨rPrev, hPrev, hPrevKeys, hPrevCap⟩ :=
    KeyRotator.successSeq_keys (ks.take (k - 1)) ⟨cfg, d, [], N⟩ (by simp) hN
  have hPrevLen : rPrev.keys.length ≤ rPrev.capacity := by
    rw [hPrevKeys, hPrevCap]
    simp [List.length_take]
  have hPrevCap1 : 1 ≤ rPrev.capacity := by rw [hPrevCap]; exact hN
  have hstep := rPrev.rotate_eq (some (ks.getD (k - 1) zeroKey)) hPrevLen hPrevCap1
  simp only [Option.isNone_some] at hstep
  have hk' : k - 1 < ks.length := by omega
  have hgetD : ks.getD (k - 1) zeroKey = ks[k - 1] := by
    simp [List.getD_eq_getElem?_getD, List.getElem?_eq_getElem hk']
  have hsplit : ks.take k = ks.take (k - 1) ++ [ks.getD (k - 1) zeroKey] := by
    calc ks.take k = ks.take ((k - 1) + 1) := by rw [Nat.sub_add_cancel hk1]
      _ = ks.take (k - 1) ++ (ks[k - 1]?).toList := List.take_succ
      _ = ks.take (k - 1) ++ [ks.getD (k - 1) zeroKey] := by
          rw [List.getElem?_eq_getElem hk', hgetD]
          rfl
  refine ⟨rPrev,
    ⟨⟨ringAfter rPrev.capacity rPrev.keys (some (ks.getD (k - 1) zeroKey)),
       rPrev.cfg.sessionTicketsDisabled⟩, rPrev.duration,
      ringAfter rPrev.capacity rPrev.keys (some (ks.getD (k - 1) zeroKey)),
      rPrev.capacity⟩, hPrev, ?_, ?_, ?_⟩
  · rw [hsplit]
    simp only [KeyRotator.successSeq, List.map_append, List.map_cons, List.map_nil,
      KeyRotator.rotateSeq_append]
    rw [show (⟨cfg, d, [], N⟩ : KeyRotator).rotateSeq ((ks.take (k - 1)).map some) =
        some rPrev from hPrev]
    rw [Option.some_bind]
    simp only [KeyRotator.rotateSeq]
    rw [hstep]
  · simp [ringAfter]
  · simp only [ringAfter, List.tail_cons, hPrevCap]

/-- Claim C3: along every sequence of `rotate()` calls (successful or
failed) on a rotator constructed with capacity `N`, the ring length
satisfies `0 ≤ len(keys) ≤ N` in every state reached, in particular before
and after every call. -/
theorem ring_length_invariant (N d : Nat) (cfg : Config)
    (pre : List (Option Key)) (rMid : KeyRotator)
    (hMid : (⟨cfg, d, [], N⟩ : KeyRotator).rotateSeq pre = some rMid) :
    0 ≤ rMid.keys.length ∧ rMid.keys.length ≤ N := by
  have hinv := KeyRotator.rotateSeq_invariant pre ⟨cfg, d, [], N⟩ (by simp)
    pre [] (by simp) rMid hMid
  have hcap : rMid.capacity = N :=
    KeyRotator.rotateSeq_capacity pre ⟨cfg, d, [], N⟩ rMid hMid
  exact ⟨Nat.zero_le _, by rw [← hcap]; exact hinv⟩

/-- Claim C4: a successful rotation installs the newly generated key at the
head of the ring, and any number of subsequent failed rotations leaves the
head — the most recently generated key — unchanged. -/
theorem head_is_latest_key (r : KeyRotator) (hlen : r.keys.length ≤ r.capacity)
    (hcap : 1 ≤ r.capacity) (k : Key) (m : Nat) :
    ∃ r₁ r₂, r.rotate (some k) = some (r₁, false) ∧
      r₁.keys.head? = some k ∧
      r₁.rotateSeq (List.replicate m none) = some r₂ ∧
      r₂.keys.head? = some k := by
  have h1 := r.rotate_eq (some k) hlen hcap
  simp only [Option.isNone_some] at h1
  have hlen₁ := length_ringAfter_le r.capacity r.keys (some k) hcap
  obtain ⟨r₂, h₂, hh₂⟩ :=
    KeyRotator.rotateSeq_failures_head m
      ⟨⟨ringAfter r.capacity r.keys (some k), r.cfg.sessionTicketsDisabled⟩,
        r.duration, ringAfter r.capacity r.keys (some k), r.capacity⟩
      hlen₁ hcap (by simp [ringAfter])
  refine ⟨_, r₂, h1, by simp [ringAfter], h₂, ?_⟩
  rw [hh₂]
  simp [ringAfter]

/-- Counterexample to claim C5 as stated: with capacity `N = 1`, pre-run
ring `[k2]` (its tail key is `k2`) and the `N + 1 = 2` successive
successful rotations generating the pairwise-distinct keys `k1, k2`, the
pre-run tail key `k2` IS still present in the ring afterwards: nothing
stops a later generated key from equalling the evicted one. -/
theorem fifo_eviction_counterexample :
    ([mkKey 1, mkKey 2] : List Key).Nodup ∧
    (⟨defaultConfig, 1, [mkKey 2], 1⟩ : KeyRotator).keys.length ≤ 1 ∧
    ((⟨defaultConfig, 1, [mkKey 2], 1⟩ : KeyRotator).successSeq
        [mkKey 1, mkKey 2] =
      some ⟨⟨[mkKey 2], false⟩, 1, [mkKey 2], 1⟩) ∧
    List.getLastD (⟨defaultConfig, 1, [mkKey 2], 1⟩ : KeyRotator).keys zeroKey ∈
      ([mkKey 2] : List Key) := by
  refine ⟨?_, ?_, ?_, ?_⟩ <;> decide

/-- Claim C5, amended: for every capacity `N ≥ 1` and any `N + 1` successive
successful rotations whose generated keys are pairwise distinct AND all
distinct from the key at the tail of the (non-empty, well-formed) ring
before the run, that pre-run tail key is no longer present in the ring
afterwards. -/
theorem fifo_eviction_of_fresh_keys (N : Nat) (hN : 1 ≤ N) (r : KeyRotator)
    (hcap : r.capacity = N) (hlen : r.keys.length ≤ N) (hne : r.keys ≠ [])
    (ks : List Key) (hks : ks.length = N + 1) (hnd : ks.Nodup)
    (hfresh : ∀ x ∈ ks, x ≠ r.keys.getLastD zeroKey)
    (r' : KeyRotator) (h : r.successSeq ks = some r') :
    r.keys.getLastD zeroKey ∉ r'.keys := by
  obtain ⟨r'', h'', hkeys, _⟩ :=
    KeyRotator.successSeq_keys ks r (by omega) (by omega)
  rw [h] at h''
  cases h''
  intro hmem
  rw [hkeys] at hmem
  have h2 : (ks.reverse ++ r.keys).take r.capacity = ks.reverse.take r.capacity := by
    refine List.take_append_of_le_length ?_
    rw [List.length_reverse, hks, hcap]
    omega
  rw [h2] at hmem
  have h3 := List.mem_of_mem_take hmem
  rw [List.mem_reverse] at h3
  exact hfresh _ h3 rfl

/-- Claim C7: the run loop never terminates because of a `rotate()` error:
on a capacity-`≥ 1` rotator the loop processes every tick (failing or not)
by discarding the error and continuing, and it exits exactly when a
shutdown request is among the handled events. -/
theorem start_loop_exits_only_on_stop (r : KeyRotator)
    (hcap : 1 ≤ r.capacity) (es : List Event) :
    ∃ r' exited, r.Start es = some (r', exited) ∧
      (exited = true ↔ Event.stopReq ∈ es) := by
  induction es generalizing r with
  | nil =>
      exact ⟨r, false, rfl, by simp⟩
  | cons e es ih =>
      cases e with
      | tick rand =>
          have hsome : ∃ r₁ e₁, r.rotate rand = some (r₁, e₁) ∧ r₁.capacity = r.capacity := by
            rcases h1 : r.rotate rand with _ | ⟨r₁, e₁⟩
            · exfalso
              rcases r with ⟨cfg, d, keys, cap⟩
              simp only [KeyRotator.rotate] at h1
              simp only at hcap
              rcases keys with _ | ⟨a, t⟩
              · rw [if_pos (by simpa using hcap)] at h1
                simp at h1
              · by_cases hlt : (a :: t).length < cap
                · rw [if_pos hlt] at h1
                  simp at h1
                · rw [if_neg hlt] at h1
                  simp at h1
            · exact ⟨r₁, e₁, rfl, ((r.rotate_fields rand r₁ e₁ h1).1)⟩
          obtain ⟨r₁, e₁, h1, hc₁⟩ := hsome
          obtain ⟨r', b, h', hiff⟩ := ih r₁ (by omega)
          refine ⟨r', b, ?_, ?_⟩
          · simp only [KeyRotator.Start, h1]
            exact h'
          · rw [hiff]
            simp
      | stopReq =>
          exact ⟨r, true, rfl, by simp⟩

/-- Claim C8: in every reachable state of the run-loop/`Stop` interleaving,
a returned `Stop` call means the run loop has fully exited; from any state
where the loop has left its `select` no step can change the rotator (no
further rotation or sink write); and every step is exactly one of a handled
tick (changing only the rotator) or a control action (changing only the
loop/stopper/acknowledgment state), never both. -/
theorem stop_handshake (r₀ : KeyRotator) (s : SysState) (h : Reach r₀ s) :
    (s.stopper = StopPhase.returned → s.loop = LoopPhase.exited) ∧
    (∀ s', s.loop ≠ LoopPhase.running → Step s s' → s'.rot = s.rot) ∧
    (∀ s₁ s₂, Step s₁ s₂ →
      s₂.rot = s₁.rot ∨
        (s₂.loop = s₁.loop ∧ s₂.stopper = s₁.stopper ∧
          s₂.ackClosed = s₁.ackClosed)) := by
  obtain ⟨i1, i2, i3⟩ := reach_handshakeInv r₀ s h
  refine ⟨i1, ?_, ?_⟩
  · intro s' hnr hstep
    cases hstep with
    | tick rand r' e hrun hrot => exact absurd hrun hnr
    | callStop err hnc => rfl
    | rendezvous hrun hreq => exact absurd hrun hnr
    | ack hack => rfl
    | stopReturn hw hac => rfl
  · intro s₁ s₂ hstep
    cases hstep with
    | tick rand r' e hrun hrot => exact Or.inr ⟨rfl, rfl, rfl⟩
    | callStop err hnc => exact Or.inl rfl
    | rendezvous hrun hreq => exact Or.inl rfl
    | ack hack => exact Or.inl rfl
    | stopReturn hw hac => exact Or.inl rfl

/-- Claim C10: `Stop`'s behaviour does not depend on its `error` argument:
for any two error values it performs exactly the same channel operations —
the send of the acknowledgment channel followed by the blocking receive. -/
theorem stop_ignores_error_argument (r : KeyRotator) (e₁ e₂ : GoError) :
    r.Stop e₁ = r.Stop e₂ ∧ r.Stop e₁ = [ChanOp.sendStop, ChanOp.recvAck] :=
  ⟨rfl, rfl⟩

/-- Witness for the C2 theorem at capacity 3, keys `k1 k2 k3`, `k = 2`. -/
theorem rotate_success_ring_shape_witness :
    (1 : Nat) ≤ 3 ∧ (1 : Nat) ≤ 2 ∧ (2 : Nat) ≤ 3 ∧
    2 ≤ ([mkKey 1, mkKey 2, mkKey 3] : List Key).length ∧
    ((∃ rPrev rCur,
      (⟨defaultConfig, 1, [], 3⟩ : KeyRotator).successSeq
          (([mkKey 1, mkKey 2, mkKey 3] : List Key).take (2 - 1)) = some rPrev ∧
      (⟨defaultConfig, 1, [], 3⟩ : KeyRotator).successSeq
          (([mkKey 1, mkKey 2, mkKey 3] : List Key).take 2) = some rCur ∧
      rCur.keys.head? =
        some (([mkKey 1, mkKey 2, mkKey 3] : List Key).getD (2 - 1) zeroKey) ∧
      rCur.keys.tail = rPrev.keys.take (3 - 1)) ∧
    ((⟨defaultConfig, 1, ([] : List Key), 3⟩ : KeyRotator).successSeq
        [mkKey 1, mkKey 2, mkKey 3] =
      some ⟨⟨[mkKey 3, mkKey 2, mkKey 1], false⟩, 1,
        [mkKey 3, mkKey 2, mkKey 1], 3⟩) ∧
    ((⟨defaultConfig, 1, ([] : List Key), 3⟩ : KeyRotator).successSeq
        [mkKey 1, mkKey 2, mkKey 3, mkKey 4] =
      some ⟨⟨[mkKey 4, mkKey 3, mkKey 2], false⟩, 1,
        [mkKey 4, mkKey 3, mkKey 2], 3⟩)) :=
  ⟨by decide, by decide, by decide, by decide,
    rotate_success_ring_shape 3 1 (by decide) defaultConfig
      [mkKey 1, mkKey 2, mkKey 3] 2 (by decide) (by decide) (by decide)⟩

/-- Witness for the C3 theorem: capacity 3, one successful then one failed
rotation; the intermediate state reached has ring length 2 ≤ 3. -/
theorem ring_length_invariant_witness :
    0 ≤ (⟨⟨[mkKey 1, mkKey 1], false⟩, 1,
      [mkKey 1, mkKey 1], 3⟩ : KeyRotator).keys.length ∧
    (⟨⟨[mkKey 1, mkKey 1], false⟩, 1,
      [mkKey 1, mkKey 1], 3⟩ : KeyRotator).keys.length ≤ 3 :=
  ring_length_invariant 3 1 defaultConfig [some (mkKey 1), none]
    ⟨⟨[mkKey 1, mkKey 1], false⟩, 1, [mkKey 1, mkKey 1], 3⟩ (by decide)

/-- Witness for the C4 theorem: a fresh capacity-3 rotator, successful
rotation generating `k1`, then two failed rotations. -/
theorem head_is_latest_key_witness :
    (⟨defaultConfig, 1, ([] : List Key), 3⟩ : KeyRotator).keys.length ≤
      (⟨defaultConfig, 1, ([] : List Key), 3⟩ : KeyRotator).capacity ∧
    1 ≤ (⟨defaultConfig, 1, ([] : List Key), 3⟩ : KeyRotator).capacity ∧
    (∃ r₁ r₂,
      (⟨defaultConfig, 1, ([] : List Key), 3⟩ : KeyRotator).rotate (some (mkKey 1)) =
        some (r₁, false) ∧
      r₁.keys.head? = some (mkKey 1) ∧
      r₁.rotateSeq (List.replicate 2 none) = some r₂ ∧
      r₂.keys.head? = some (mkKey 1)) :=
  ⟨by decide, by decide,
    head_is_latest_key ⟨defaultConfig, 1, [], 3⟩ (by decide) (by decide) (mkKey 1) 2⟩

/-- Witness for the amended C5 theorem: capacity 1, pre-run ring `[k2]`,
two successful rotations generating `k1, k3`, both distinct from `k2`. -/
theorem fifo_eviction_of_fresh_keys_witness :
    (1 : Nat) ≤ 1 ∧
    (⟨defaultConfig, 1, [mkKey 2], 1⟩ : KeyRotator).capacity = 1 ∧
    (⟨defaultConfig, 1, [mkKey 2], 1⟩ : KeyRotator).keys.length ≤ 1 ∧
    (⟨defaultConfig, 1, [mkKey 2], 1⟩ : KeyRotator).keys ≠ [] ∧
    ([mkKey 1, mkKey 3] : List Key).length = 1 + 1 ∧
    ([mkKey 1, mkKey 3] : List Key).Nodup ∧
    (∀ x ∈ ([mkKey 1, mkKey 3] : List Key),
      x ≠ (⟨defaultConfig, 1, [mkKey 2], 1⟩ : KeyRotator).keys.getLastD zeroKey) ∧
    ((⟨defaultConfig, 1, [mkKey 2], 1⟩ : KeyRotator).successSeq [mkKey 1, mkKey 3] =
      some ⟨⟨[mkKey 3], false⟩, 1, [mkKey 3], 1⟩) ∧
    (⟨defaultConfig, 1, [mkKey 2], 1⟩ : KeyRotator).keys.getLastD zeroKey ∉
      (⟨⟨[mkKey 3], false⟩, 1, [mkKey 3], 1⟩ : KeyRotator).keys :=
  ⟨by decide, by decide, by decide, by decide, by decide, by decide, by decide,
    by decide,
    fifo_eviction_of_fresh_keys 1 (by decide) ⟨defaultConfig, 1, [mkKey 2], 1⟩
      (by decide) (by decide) (by decide) [mkKey 1, mkKey 3] (by decide)
      (by decide) (by decide) ⟨⟨[mkKey 3], false⟩, 1, [mkKey 3], 1⟩ (by decide)⟩

/-- Witness for the C6 theorem at `n = 3`. -/
theorem withSessionTicketKeyRotation_seeding_witness :
    (1 : Nat) ≤ 3 ∧
    ((∃ cfg', WithSessionTicketKeyRotation 3 1 defaultConfig none =
        some (cfg', none, false) ∧ cfg'.sessionTicketsDisabled = true) ∧
    (∀ k : Key, ∃ cfg' r',
      WithSessionTicketKeyRotation 3 1 defaultConfig (some k) =
        some (cfg', some r', false) ∧
      cfg'.sessionTicketsDisabled = defaultConfig.sessionTicketsDisabled)) :=
  ⟨by decide, withSessionTicketKeyRotation_seeding 3 1 (by decide) defaultConfig⟩

/-- Witness for the C7 theorem: a failing tick followed by a shutdown
request on a fresh capacity-3 rotator. -/
theorem start_loop_exits_only_on_stop_witness :
    1 ≤ (⟨defaultConfig, 1, ([] : List Key), 3⟩ : KeyRotator).capacity ∧
    (∃ r' exited,
      (⟨defaultConfig, 1, ([] : List Key), 3⟩ : KeyRotator).Start
          [Event.tick none, Event.stopReq] = some (r', exited) ∧
      (exited = true ↔ Event.stopReq ∈ [Event.tick none, Event.stopReq])) :=
  ⟨by decide,
    start_loop_exits_only_on_stop ⟨defaultConfig, 1, [], 3⟩ (by decide)
      [Event.tick none, Event.stopReq]⟩

/-- Witness for the C8 theorem at the initial state of a fresh capacity-3
rotator. -/
theorem stop_handshake_witness :
    ((SysState.init ⟨defaultConfig, 1, [], 3⟩).stopper = StopPhase.returned →
      (SysState.init ⟨defaultConfig, 1, [], 3⟩).loop = LoopPhase.exited) ∧
    (∀ s', (SysState.init ⟨defaultConfig, 1, [], 3⟩).loop ≠ LoopPhase.running →
      Step (SysState.init ⟨defaultConfig, 1, [], 3⟩) s' →
      s'.rot = (SysState.init ⟨defaultConfig, 1, [], 3⟩).rot) ∧
    (∀ s₁ s₂, Step s₁ s₂ →
      s₂.rot = s₁.rot ∨
        (s₂.loop = s₁.loop ∧ s₂.stopper = s₁.stopper ∧
          s₂.ackClosed = s₁.ackClosed)) :=
  stop_handshake ⟨defaultConfig, 1, [], 3⟩ (SysState.init ⟨defaultConfig, 1, [], 3⟩)
    Relation.ReflTransGen.refl

/-- Witness for the C9 theorem at `n = 3`. -/
theorem first_failed_rotation_publishes_zero_key_witness :
    (1 : Nat) ≤ 3 ∧
    ((∃ r', (⟨defaultConfig, 1, [], 3⟩ : KeyRotator).rotate none = some (r', true) ∧
      r'.cfg.sessionTicketKeys = [zeroKey] ∧
      r'.cfg.sessionTicketsDisabled = defaultConfig.sessionTicketsDisabled) ∧
    (∃ cfg', WithSessionTicketKeyRotation 3 1 defaultConfig none =
        some (cfg', none, false) ∧
      cfg'.sessionTicketKeys = [zeroKey] ∧
      cfg'.sessionTicketsDisabled = true)) :=
  ⟨by decide, first_failed_rotation_publishes_zero_key 3 1 (by decide) defaultConfig⟩

end Tlsutil
